import Mathlib

/-!
Verification of the workcity-assessment-backend core: the referential-integrity
and query-filtering logic binding Clients and Projects.

The JavaScript source is shallowly embedded below.  The document store
(MongoDB/Mongoose) is modelled as explicit lists of records inside a `Store`
value; each Express route handler becomes a function
`Store → request data → Except ApiError Store`.  An `Except.error` result
corresponds to a handler that responds with an error before performing any
mutating write, so the store is unchanged in every error case, exactly as in
the source where every error path `return`s before the `create` /
`findByIdAndUpdate` / `save` / `findByIdAndDelete` call.

Conventions used throughout:
* MongoDB ObjectIds are modelled as `Nat`; the store assigns a fresh id on
  insert (MongoDB guarantees freshness of generated `_id`s).
* JavaScript `Date` values are modelled as `Int` (milliseconds since epoch);
  JavaScript numbers used for budgets are modelled as `Int`.
* Status values are plain strings, as in the source (`"active"`,
  `"pending"`, ...), so that enum membership is a provable property rather
  than a typing triviality.
* The Mongoose `lowercase: true` setter on `Client.email` is modelled by
  `lowerStr`; Mongoose applies this setter both to persisted values and to
  query-filter values (`findOne({ email })`).
* The error taxonomy of the spec is the inductive `ApiError`; the mapping to
  the HTTP responses of the source is documented on each constructor.
-/

namespace Workcity

/-- Entry of the `details` array of a validation-error response:
`{ field: detail.path[0], message: detail.message }`. -/
structure FieldError where
  field : String
  message : String
deriving Repr, DecidableEq

/-- Error outcomes of the route handlers, following the spec's taxonomy.
The corresponding HTTP responses in the source are:
* `validationError details` — status 400, message "Validation error";
* `notFound msg` — status 404;
* `conflict msg` — status 400 with a uniqueness / state-transition message
  (duplicate email, inactive client, client with active projects);
* `forbidden msg` — status 403;
* `internalError msg` — status 500 from the route's catch-all handler. -/
inductive ApiError where
  | validationError : List FieldError → ApiError
  | notFound : String → ApiError
  | conflict : String → ApiError
  | forbidden : String → ApiError
  | internalError : String → ApiError
deriving Repr, DecidableEq

/-- Model of the JavaScript `toLowerCase()` / Mongoose `lowercase: true`
setter: lowercase every character. -/
def lowerStr (s : String) : String :=
  ⟨s.data.map Char.toLower⟩

/-- Helper for `trimStr`: drop leading whitespace characters. -/
def dropLeadingWs : List Char → List Char
  | [] => []
  | c :: cs => if c.isWhitespace then dropLeadingWs cs else c :: cs

/-- Model of the JavaScript / Joi / Mongoose `trim`: strip whitespace from
both ends (written by structural recursion so that concrete instances
reduce). -/
def trimStr (s : String) : String :=
  ⟨dropLeadingWs ((dropLeadingWs s.data.reverse).reverse)⟩

/-- Client record as persisted by `clientSchema` (part_000): `name`, `email`
(stored lowercased by the schema setter), `phone`, `company`, optional
`address`, `status` with default `"active"`.  The `createdAt` timestamp is
kept for sorting; `updatedAt` is store-managed metadata no claim depends on
and is omitted. -/
structure Client where
  id : Nat
  name : String
  email : String
  phone : String
  company : String
  address : Option String
  status : String
  createdAt : Nat
deriving Repr, DecidableEq

/-- Project record as persisted by `projectSchema` (part_000). -/
structure Project where
  id : Nat
  title : String
  description : String
  clientId : Nat
  status : String
  startDate : Int
  endDate : Int
  budget : Int
  createdBy : Nat
  createdAt : Nat
deriving Repr, DecidableEq

/-- State of the document store: the two collections the core works with. -/
structure Store where
  clients : List Client
  projects : List Project
deriving Repr, DecidableEq

/-- Authenticated subject attached to the request by the `protect`
middleware: `req.user.id` and `req.user.role`. -/
structure Actor where
  id : Nat
  role : String
deriving Repr, DecidableEq

/-- Replace the first element satisfying `p` by its image under `f`; models a
Mongoose single-document update (`findByIdAndUpdate`, `document.save()`)
against the list-of-documents store. -/
def updateFirst (p : α → Bool) (f : α → α) : List α → List α
  | [] => []
  | x :: xs => if p x then f x :: xs else x :: updateFirst p f xs

/-- Count of `Project.countDocuments({ clientId: id, status: { $in:
["pending", "in-progress"] } })` in the clients router's delete handler. -/
def countActiveProjects (s : Store) (cid : Nat) : Nat :=
  (s.projects.filter
    (fun p => p.clientId == cid && (p.status == "pending" || p.status == "in-progress"))).length

/-- Conflict message of the clients router's delete handler, reporting the
count of active projects. -/
def activeProjectsMessage (n : Nat) : String :=
  "Cannot delete client with " ++ toString n ++
    " active project(s). Please complete or cancel projects first."

/-- Soft delete applied to the found client document:
`client.status = "inactive"; await client.save()`. -/
def setInactive (c : Client) : Client :=
  { c with status := "inactive" }

/-- DELETE /api/clients/:id (clients router, part_005 lines 607-647): look the
client up, fail with 404 if missing, count its pending / in-progress projects,
fail with the conflict message if the count is positive, otherwise set
`status = "inactive"` and save.  The record itself and its projects are never
deleted. -/
def clientDeactivate (s : Store) (cid : Nat) : Except ApiError Store :=
  match s.clients.find? (fun c => c.id == cid) with
  | none => .error (.notFound "Client not found")
  | some _ =>
    if 0 < countActiveProjects s cid then
      .error (.conflict (activeProjectsMessage (countActiveProjects s cid)))
    else
      .ok { s with clients := updateFirst (fun c => c.id == cid) setInactive s.clients }

/-! ### Joi validation layer (validation/client and validation/project, part_001)

Joi validates with its default options, in particular `abortEarly: true`:
validation stops at the first failing schema key, so the `details` array the
middleware builds contains at most one entry.  The functions below compute
the full list of per-field errors in schema-key order; the middleware model
takes the first one.  Joi's `convert` default trims `trim()` strings before
the length checks, mirrored by checking `v.trim`. -/

/-- Request body of POST /api/clients and PUT /api/clients/:id; every field
optional at the transport level, requiredness enforced by the schema. -/
structure ClientBody where
  name : Option String
  email : Option String
  phone : Option String
  company : Option String
  address : Option String
  status : Option String
deriving Repr, DecidableEq

/-- Split a character list at every occurrence of `sep` (structural helper
for the email format check). -/
def splitAtChar (sep : Char) : List Char → List (List Char)
  | [] => [[]]
  | c :: cs =>
    let rest := splitAtChar sep cs
    if c == sep then [] :: rest
    else
      match rest with
      | r :: rs => (c :: r) :: rs
      | [] => [[c]]

/-- Abstraction of Joi's library-internal `.email()` format algorithm:
one `@`, nonempty local part, a dotted nonempty domain, no spaces.  No
theorem below depends on the fine structure of this predicate; it only
needs to be a concrete executable check. -/
def joiEmailOk (s : String) : Bool :=
  match splitAtChar '@' s.data with
  | [l, d] => !l.isEmpty && !d.isEmpty && d.contains '.' && !s.data.contains ' '
  | _ => false

/-- Joi check of `createClientSchema.name`: string, trimmed, 2-100 chars,
required. -/
def checkClientName : Option String → Option FieldError
  | none => some ⟨"name", "Name is required"⟩
  | some v =>
    let t := trimStr v
    if t.data.isEmpty then some ⟨"name", "Name is required"⟩
    else if t.length < 2 then some ⟨"name", "Name must be at least 2 characters long"⟩
    else if 100 < t.length then some ⟨"name", "Name cannot exceed 100 characters"⟩
    else none

/-- Joi check of `createClientSchema.email`: email format, required. -/
def checkClientEmail : Option String → Option FieldError
  | none => some ⟨"email", "Email is required"⟩
  | some v =>
    if v.data.isEmpty then some ⟨"email", "Email is required"⟩
    else if !joiEmailOk v then some ⟨"email", "Please provide a valid email address"⟩
    else none

/-- Joi check of `createClientSchema.phone`: string, trimmed, 10-20 chars,
required. -/
def checkClientPhone : Option String → Option FieldError
  | none => some ⟨"phone", "Phone is required"⟩
  | some v =>
    let t := trimStr v
    if t.data.isEmpty then some ⟨"phone", "Phone is required"⟩
    else if t.length < 10 then some ⟨"phone", "Phone must be at least 10 characters long"⟩
    else if 20 < t.length then some ⟨"phone", "Phone cannot exceed 20 characters"⟩
    else none

/-- Joi check of `createClientSchema.company`: string, trimmed, 2-100 chars,
required. -/
def checkClientCompany : Option String → Option FieldError
  | none => some ⟨"company", "Company is required"⟩
  | some v =>
    let t := trimStr v
    if t.data.isEmpty then some ⟨"company", "Company is required"⟩
    else if t.length < 2 then some ⟨"company", "Company must be at least 2 characters long"⟩
    else if 100 < t.length then some ⟨"company", "Company cannot exceed 100 characters"⟩
    else none

/-- Joi check of `createClientSchema.address`: optional, at most 200 chars,
empty string allowed. -/
def checkClientAddress : Option String → Option FieldError
  | none => none
  | some v =>
    if 200 < (trimStr v).length then some ⟨"address", "Address cannot exceed 200 characters"⟩
    else none

/-- Joi check of `createClientSchema.status`: optional, `"active"` or
`"inactive"`. -/
def checkClientStatus : Option String → Option FieldError
  | none => none
  | some v =>
    if v == "active" || v == "inactive" then none
    else some ⟨"status", "Status must be either active or inactive"⟩

/-- Field errors of `createClientSchema` in schema-key order. -/
def createClientSchemaErrors (b : ClientBody) : List FieldError :=
  (checkClientName b.name).toList ++ (checkClientEmail b.email).toList ++
  (checkClientPhone b.phone).toList ++ (checkClientCompany b.company).toList ++
  (checkClientAddress b.address).toList ++ (checkClientStatus b.status).toList

/-- Details array produced by the `validateCreateClient` middleware: Joi's
default `abortEarly: true` stops at the first error, so at most one entry
is reported. -/
def validateCreateClientDetails (b : ClientBody) : List FieldError :=
  (createClientSchemaErrors b).take 1

/-- Joi check of an `updateClientSchema` string field when present (all
fields optional on update); the length bound subsumes the empty string. -/
def checkOptionalString (field : String) (lo hi : Nat) (msgMin msgMax : String) :
    Option String → Option FieldError
  | none => none
  | some v =>
    let t := trimStr v
    if t.length < lo then some ⟨field, msgMin⟩
    else if hi < t.length then some ⟨field, msgMax⟩
    else none

/-- Field errors of `updateClientSchema` in schema-key order, plus the
`object.min(1)` rule requiring at least one field in the patch (its Joi
detail has an empty path, modelled as field `""`). -/
def updateClientSchemaErrors (b : ClientBody) : List FieldError :=
  if b.name.isNone && b.email.isNone && b.phone.isNone && b.company.isNone &&
      b.address.isNone && b.status.isNone then
    [⟨"", "At least one field must be provided for update"⟩]
  else
    (checkOptionalString "name" 2 100 "Name must be at least 2 characters long"
      "Name cannot exceed 100 characters" b.name).toList ++
    (match b.email with
      | none => none
      | some v =>
        if !joiEmailOk v then some (⟨"email", "Please provide a valid email address"⟩ : FieldError)
        else none).toList ++
    (checkOptionalString "phone" 10 20 "Phone must be at least 10 characters long"
      "Phone cannot exceed 20 characters" b.phone).toList ++
    (checkOptionalString "company" 2 100 "Company must be at least 2 characters long"
      "Company cannot exceed 100 characters" b.company).toList ++
    (checkClientAddress b.address).toList ++ (checkClientStatus b.status).toList

/-- Request body of POST /api/projects and PUT /api/projects/:id.  The
`clientId` is a validated ObjectId string in the source, modelled as `Nat`
(so the `objectId` format check always passes). -/
structure ProjectBody where
  title : Option String
  description : Option String
  clientId : Option Nat
  status : Option String
  startDate : Option Int
  endDate : Option Int
  budget : Option Int
deriving Repr, DecidableEq

/-- Joi check of `createProjectSchema.status` (same rule on update):
optional, one of the three enum values. -/
def checkProjectStatus : Option String → Option FieldError
  | none => none
  | some v =>
    if v == "pending" || v == "in-progress" || v == "completed" then none
    else some ⟨"status", "Status must be pending, in-progress, or completed"⟩

/-- Joi check of `createProjectSchema.budget` (same rule on update):
number, at least 0. -/
def checkProjectBudget (required : Bool) : Option Int → Option FieldError
  | none => if required then some ⟨"budget", "Budget is required"⟩ else none
  | some v => if v < 0 then some ⟨"budget", "Budget cannot be negative"⟩ else none

/-- Field errors of `createProjectSchema` in schema-key order.  The
`endDate` rule is `Joi.date().greater(Joi.ref("startDate")).required()`:
when `startDate` is itself missing its own required error is reported and
the reference comparison is skipped. -/
def createProjectSchemaErrors (b : ProjectBody) : List FieldError :=
  (checkOptionalString "title" 2 200 "Title must be at least 2 characters long"
    "Title cannot exceed 200 characters" b.title).toList ++
  (if b.title.isNone then [(⟨"title", "Title is required"⟩ : FieldError)] else []) ++
  (checkOptionalString "description" 10 2000 "Description must be at least 10 characters long"
    "Description cannot exceed 2000 characters" b.description).toList ++
  (if b.description.isNone then [(⟨"description", "Description is required"⟩ : FieldError)] else []) ++
  (if b.clientId.isNone then [(⟨"clientId", "Client ID is required"⟩ : FieldError)] else []) ++
  (checkProjectStatus b.status).toList ++
  (if b.startDate.isNone then [(⟨"startDate", "Start date is required"⟩ : FieldError)] else []) ++
  (match b.endDate with
    | none => [(⟨"endDate", "End date is required"⟩ : FieldError)]
    | some ed =>
      match b.startDate with
      | some sd =>
        if ed ≤ sd then [(⟨"endDate", "End date must be after start date"⟩ : FieldError)] else []
      | none => []) ++
  (checkProjectBudget true b.budget).toList

/-- Details array produced by the `validateCreateProject` middleware
(Joi default `abortEarly: true`: first error only). -/
def validateCreateProjectDetails (b : ProjectBody) : List FieldError :=
  (createProjectSchemaErrors b).take 1

/-- Field errors of `updateProjectSchema`: all fields optional, the
`object.min(1)` rule, and the conditional `endDate.when("startDate", ...)`
rule — the ordering of the two dates is checked *only when both appear in
the patch*; a patch containing one of the two dates is never compared
against the persisted value of the other. -/
def updateProjectSchemaErrors (b : ProjectBody) : List FieldError :=
  if b.title.isNone && b.description.isNone && b.clientId.isNone && b.status.isNone &&
      b.startDate.isNone && b.endDate.isNone && b.budget.isNone then
    [⟨"", "At least one field must be provided for update"⟩]
  else
    (checkOptionalString "title" 2 200 "Title must be at least 2 characters long"
      "Title cannot exceed 200 characters" b.title).toList ++
    (checkOptionalString "description" 10 2000 "Description must be at least 10 characters long"
      "Description cannot exceed 2000 characters" b.description).toList ++
    (checkProjectStatus b.status).toList ++
    (match b.startDate, b.endDate with
      | some sd, some ed =>
        if ed ≤ sd then [(⟨"endDate", "End date must be after start date"⟩ : FieldError)] else []
      | _, _ => []) ++
    (checkProjectBudget false b.budget).toList

/-! ### Route handlers (clients router and projects router, part_005) -/

/-- Fresh document id the store assigns on a client insert (MongoDB
guarantees a generated `_id` distinct from every existing one). -/
def freshClientId (s : Store) : Nat :=
  (s.clients.map Client.id).foldr max 0 + 1

/-- Fresh document id the store assigns on a project insert. -/
def freshProjectId (s : Store) : Nat :=
  (s.projects.map Project.id).foldr max 0 + 1

/-- POST /api/clients (part_005 lines 515-549): Joi validation middleware,
then the duplicate-email pre-check `Client.findOne({ email })` (the
`lowercase` setter applies to the filter value and the stored values),
then `Client.create` with the schema defaults (`status: "active"`) and
setters (trim, lowercase).  The final catch-all arm is unreachable when the
validation errors are empty, since the four fields are required. -/
def clientCreate (s : Store) (b : ClientBody) (createdAt : Nat) : Except ApiError Store :=
  match createClientSchemaErrors b with
  | e :: _ => .error (.validationError [e])
  | [] =>
    match b.name, b.email, b.phone, b.company with
    | some nm, some em, some ph, some co =>
      if (s.clients.find? (fun c => c.email == lowerStr em)).isSome then
        .error (.conflict "Client with this email already exists")
      else
        .ok { s with clients := s.clients ++
          [{ id := freshClientId s, name := trimStr nm, email := lowerStr em,
             phone := trimStr ph, company := trimStr co,
             address := b.address.map trimStr,
             status := b.status.getD "active", createdAt := createdAt }] }
    | _, _, _, _ => .error (.validationError [])

/-- Application of a client update patch to the stored document, with the
schema setters (trim, lowercase) that Mongoose runs on update payloads. -/
def applyClientPatch (b : ClientBody) (c : Client) : Client :=
  { c with
    name := (b.name.map trimStr).getD c.name
    email := (b.email.map lowerStr).getD c.email
    phone := (b.phone.map trimStr).getD c.phone
    company := (b.company.map trimStr).getD c.company
    address := match b.address with | some a => some (trimStr a) | none => c.address
    status := b.status.getD c.status }

/-- PUT /api/clients/:id (part_005 lines 554-602): Joi validation
middleware, then — when the patch carries an email — the duplicate pre-check
`Client.findOne({ email, _id: { $ne: id } })`, then
`Client.findByIdAndUpdate` which yields the 404 when the id does not
resolve. -/
def clientUpdate (s : Store) (cid : Nat) (b : ClientBody) : Except ApiError Store :=
  match updateClientSchemaErrors b with
  | e :: _ => .error (.validationError [e])
  | [] =>
    if (match b.email with
        | some em => (s.clients.find? (fun o => o.email == lowerStr em && !(o.id == cid))).isSome
        | none => false : Bool) then
      .error (.conflict "Another client with this email already exists")
    else
      match s.clients.find? (fun c => c.id == cid) with
      | none => .error (.notFound "Client not found")
      | some _ =>
        .ok { s with clients := updateFirst (fun c => c.id == cid) (applyClientPatch b) s.clients }

/-- POST /api/projects (part_005 lines 156-205): Joi validation middleware,
the client existence / activeness pre-check, then `Project.create` with
`createdBy: req.user.id` and the schema default `status: "pending"`.  The
Mongoose-level checks at create (the `endDate` document validator and the
`pre("save")` client re-check) repeat checks already made on this same store
state and cannot change the outcome; the trailing catch-all arms are
unreachable when the validation errors are empty. -/
def projectCreate (s : Store) (actorId : Nat) (b : ProjectBody) (createdAt : Nat) :
    Except ApiError Store :=
  match createProjectSchemaErrors b with
  | e :: _ => .error (.validationError [e])
  | [] =>
    match b.clientId with
    | none => .error (.validationError [])
    | some cid =>
      match s.clients.find? (fun c => c.id == cid) with
      | none => .error (.notFound "Client not found")
      | some c =>
        if c.status == "inactive" then
          .error (.conflict "Cannot create project for inactive client")
        else
          match b.title, b.description, b.startDate, b.endDate, b.budget with
          | some t, some d, some sd, some ed, some bud =>
            .ok { s with projects := s.projects ++
              [{ id := freshProjectId s, title := trimStr t, description := trimStr d,
                 clientId := cid, status := b.status.getD "pending",
                 startDate := sd, endDate := ed, budget := bud,
                 createdBy := actorId, createdAt := createdAt }] }
          | _, _, _, _, _ => .error (.validationError [])

/-- Application of a project update patch to the stored document, with the
trim setters Mongoose runs on update payloads. -/
def applyProjectPatch (b : ProjectBody) (p : Project) : Project :=
  { p with
    title := (b.title.map trimStr).getD p.title
    description := (b.description.map trimStr).getD p.description
    clientId := b.clientId.getD p.clientId
    status := b.status.getD p.status
    startDate := b.startDate.getD p.startDate
    endDate := b.endDate.getD p.endDate
    budget := b.budget.getD p.budget }

/-- Model of `Project.findByIdAndUpdate(id, updateData, { new: true,
runValidators: true })`.  Mongoose update validators run only on the paths
present in the update.  The single custom validator, on `endDate`, is
`value > this.startDate` (part_000 lines 34-39); during an update `this` is
not the persisted document — Mongoose update validators have no access to
it — so the comparison never succeeds and every patch containing `endDate`
is rejected by Mongoose, which the route's catch-all turns into the 500
response.  No ordering validation at all runs for a patch without
`endDate`.  The built-in bound checks on the other paths are subsumed by
the stricter Joi middleware that has already passed.  A null result (id
does not resolve) yields the 404 response. -/
def projectFindAndUpdate (s : Store) (pid : Nat) (b : ProjectBody) : Except ApiError Store :=
  if b.endDate.isSome then .error (.internalError "Error updating project")
  else
    match s.projects.find? (fun p => p.id == pid) with
    | none => .error (.notFound "Project not found")
    | some _ =>
      .ok { s with projects := updateFirst (fun p => p.id == pid) (applyProjectPatch b) s.projects }

/-- PUT /api/projects/:id (part_005 lines 210-271): Joi validation
middleware, then — when the patch carries a clientId — the client
existence / activeness pre-check, then `findByIdAndUpdate`. -/
def projectUpdate (s : Store) (pid : Nat) (b : ProjectBody) : Except ApiError Store :=
  match updateProjectSchemaErrors b with
  | e :: _ => .error (.validationError [e])
  | [] =>
    match b.clientId with
    | some cid =>
      match s.clients.find? (fun c => c.id == cid) with
      | none => .error (.notFound "Client not found")
      | some c =>
        if c.status == "inactive" then
          .error (.conflict "Cannot assign project to inactive client")
        else projectFindAndUpdate s pid b
    | none => projectFindAndUpdate s pid b

/-- DELETE /api/projects/:id (part_005 lines 276-308): look the project up,
404 if missing, 403 unless the actor is the creator or an admin, then
`Project.findByIdAndDelete` removes that single document. -/
def projectDelete (s : Store) (actor : Actor) (pid : Nat) : Except ApiError Store :=
  match s.projects.find? (fun p => p.id == pid) with
  | none => .error (.notFound "Project not found")
  | some p =>
    if !(p.createdBy == actor.id) && !(actor.role == "admin") then
      .error (.forbidden "Not authorized to delete this project")
    else
      .ok { s with projects := s.projects.eraseP (fun p => p.id == pid) }

/-! ### Project list query builder and pagination (projects router, part_005 lines 19-122) -/

/-- Query parameters of GET /api/projects after the Joi query middleware
(`validateProjectQuery` assigns the converted value back to `req.query`):
dates are `Date` objects, the budget bounds are numbers.  The `page`,
`limit`, `sortBy` and `sortOrder` parameters are handled by `listPipeline`
below. -/
structure ProjectQuery where
  search : Option String
  status : Option String
  clientId : Option Nat
  startDateFrom : Option Int
  startDateTo : Option Int
  endDateFrom : Option Int
  endDateTo : Option Int
  budgetMin : Option Int
  budgetMax : Option Int
deriving Repr, DecidableEq

/-- Case-insensitive substring test, the meaning of the document-store
filter `{ $regex: search, $options: "i" }` for free text; the spec treats
the store as an opaque collaborator providing exactly this capability
("free-text search across title/description (case-insensitive substring)"). -/
def ciContains (hay needle : String) : Bool :=
  decide ((needle.data.map Char.toLower) <:+: (hay.data.map Char.toLower))

/-- Compound filter predicate built by the GET /api/projects handler.  Every
category is guarded by a JavaScript truthiness test on the parameter:
`if (search)`, `if (status)`, `if (clientId)`, `if (startDateFrom ||
startDateTo)`, ..., `if (budgetMin || budgetMax)`.  For strings, truthiness
excludes the empty string; for the converted `Date` objects it always holds;
for the budget numbers it excludes 0 — a budget bound equal to 0 is
therefore never added to the query. -/
def matchesProjectQuery (q : ProjectQuery) (p : Project) : Bool :=
  (match q.search with
    | none => true
    | some sr => sr.data.isEmpty || (ciContains p.title sr || ciContains p.description sr)) &&
  (match q.status with
    | none => true
    | some st => st.data.isEmpty || p.status == st) &&
  (match q.clientId with
    | none => true
    | some cid => p.clientId == cid) &&
  (match q.startDateFrom with | none => true | some d => d ≤ p.startDate) &&
  (match q.startDateTo with | none => true | some d => p.startDate ≤ d) &&
  (match q.endDateFrom with | none => true | some d => d ≤ p.endDate) &&
  (match q.endDateTo with | none => true | some d => p.endDate ≤ d) &&
  (match q.budgetMin with | none => true | some m => m == 0 || m ≤ p.budget) &&
  (match q.budgetMax with | none => true | some m => m == 0 || p.budget ≤ m)

/-- Result set of `Project.find(query)` for the compound filter (before
sorting and pagination). -/
def filterProjects (q : ProjectQuery) (l : List Project) : List Project :=
  l.filter (matchesProjectQuery q)

/-- Filter predicate as the claim words it: conjunction over all supplied
filter categories, free text a case-insensitive-substring disjunction over
title and description, exact status and clientId, inclusive date bounds, and
budget inside the inclusive range `[budgetMin, budgetMax]` for every
supplied bound *including the value 0*.  Stated for comparison with
`matchesProjectQuery`, the predicate the code builds. -/
def claimMatchesProjectQuery (q : ProjectQuery) (p : Project) : Bool :=
  (match q.search with
    | none => true
    | some sr => ciContains p.title sr || ciContains p.description sr) &&
  (match q.status with | none => true | some st => p.status == st) &&
  (match q.clientId with | none => true | some cid => p.clientId == cid) &&
  (match q.startDateFrom with | none => true | some d => d ≤ p.startDate) &&
  (match q.startDateTo with | none => true | some d => p.startDate ≤ d) &&
  (match q.endDateFrom with | none => true | some d => d ≤ p.endDate) &&
  (match q.endDateTo with | none => true | some d => p.endDate ≤ d) &&
  (match q.budgetMin with | none => true | some m => m ≤ p.budget) &&
  (match q.budgetMax with | none => true | some m => p.budget ≤ m)

/-- Joi `querySchema` constraints on the filter parameters modelled in
`ProjectQuery`: `status` one of the three enum values, budget bounds at
least 0 (`page`, `limit`, `sortBy`, `sortOrder` are handled separately and
`search`, the dates and `clientId` carry no further constraint in this
model). -/
def projectQueryOk (q : ProjectQuery) : Bool :=
  (match q.status with
    | none => true
    | some st => st == "pending" || st == "in-progress" || st == "completed") &&
  (match q.budgetMin with | none => true | some m => 0 ≤ m) &&
  (match q.budgetMax with | none => true | some m => 0 ≤ m)

/-- Filter predicate as the amended claim words it: identical to
`claimMatchesProjectQuery` except for the budget category — a supplied
budget bound equal to 0 imposes no constraint, because the code guards the
budget category with a JavaScript truthiness test that drops a 0 bound. -/
def claimAmendedMatchesProjectQuery (q : ProjectQuery) (p : Project) : Bool :=
  (match q.search with
    | none => true
    | some sr => ciContains p.title sr || ciContains p.description sr) &&
  (match q.status with | none => true | some st => p.status == st) &&
  (match q.clientId with | none => true | some cid => p.clientId == cid) &&
  (match q.startDateFrom with | none => true | some d => d ≤ p.startDate) &&
  (match q.startDateTo with | none => true | some d => p.startDate ≤ d) &&
  (match q.endDateFrom with | none => true | some d => d ≤ p.endDate) &&
  (match q.endDateTo with | none => true | some d => p.endDate ≤ d) &&
  (match q.budgetMin with | none => true | some m => m == 0 || m ≤ p.budget) &&
  (match q.budgetMax with | none => true | some m => m == 0 || p.budget ≤ m)

/-- Concrete fixture: a Joi-valid query supplying only `budgetMax = 0`
(`querySchema` only requires the budget bounds to be ≥ 0). -/
def exQueryBudgetMaxZero : ProjectQuery :=
  ⟨none, none, none, none, none, none, none, none, some 0⟩

/-- Concrete fixture: a Joi-valid query exercising several filter
categories, including a `budgetMin` of 0. -/
def exQuery : ProjectQuery :=
  ⟨some "site", some "pending", some 1, some 0, some 5, none, none, some 0, some 200⟩

/-- Pagination metadata block of the list responses. -/
structure Pagination where
  currentPage : Nat
  totalPages : Nat
  totalRecords : Nat
  hasNextPage : Bool
  hasPrevPage : Bool
  limit : Nat
deriving Repr, DecidableEq

/-- Pagination metadata computed by both list handlers:
`totalPages = Math.ceil(total / limit)`, `hasNextPage = page < totalPages`,
`hasPrevPage = page > 1`.  With `total` and `limit` natural numbers and
`limit ≥ 1`, `Math.ceil(total / limit) = (total + limit - 1) / limit` in
natural division (proved below). -/
def paginationInfo (total page limit : Nat) : Pagination :=
  { currentPage := page
    totalPages := (total + limit - 1) / limit
    totalRecords := total
    hasNextPage := decide (page < (total + limit - 1) / limit)
    hasPrevPage := decide (1 < page)
    limit := limit }

/-- Page slice both list handlers request from the store:
`skip((page - 1) * limit).limit(limit)` applied to the sorted result
sequence (sorting is performed by the opaque document store). -/
def pageSlice (l : List α) (page limit : Nat) : List α :=
  (l.drop ((page - 1) * limit)).take limit

/-- List route pipeline after filtering and sorting: the returned page of
records and the pagination metadata, from the sorted result sequence `l`. -/
def listPipeline (l : List Project) (page limit : Nat) : List Project × Pagination :=
  (pageSlice l page limit, paginationInfo l.length page limit)

/-! ### Operations and reachability -/

/-- Mutating operation against the store, with the request data each route
reads (`createdAt` stands for the store-assigned creation timestamp). -/
inductive Op where
  | cCreate (b : ClientBody) (createdAt : Nat)
  | cUpdate (cid : Nat) (b : ClientBody)
  | cDeact (cid : Nat)
  | pCreate (actorId : Nat) (b : ProjectBody) (createdAt : Nat)
  | pUpdate (pid : Nat) (b : ProjectBody)
  | pDelete (actor : Actor) (pid : Nat)
deriving Repr

/-- Dispatch of an operation to its route handler. -/
def runOp (s : Store) : Op → Except ApiError Store
  | .cCreate b createdAt => clientCreate s b createdAt
  | .cUpdate cid b => clientUpdate s cid b
  | .cDeact cid => clientDeactivate s cid
  | .pCreate actorId b createdAt => projectCreate s actorId b createdAt
  | .pUpdate pid b => projectUpdate s pid b
  | .pDelete actor pid => projectDelete s actor pid

/-- Store after an operation: the new store on success, the old store when
the handler responded with an error (every error return in the source
happens before the mutating write). -/
def applyOp (s : Store) (op : Op) : Store :=
  match runOp s op with
  | .ok s' => s'
  | .error _ => s

/-- States of the document store reachable from the empty store through the
mutating routes. -/
inductive Reachable : Store → Prop where
  | init : Reachable ⟨[], []⟩
  | step {s : Store} (op : Op) : Reachable s → Reachable (applyOp s op)

/-- Concrete fixture: an active client, for instantiating theorems. -/
def exClient : Client :=
  ⟨1, "Acme", "a@acme.com", "1234567890", "Acme", none, "active", 0⟩

/-- Concrete fixture: an inactive client with a distinct id and email. -/
def exClientInactive : Client :=
  ⟨2, "Beta", "b@beta.com", "0987654321", "Beta", none, "inactive", 1⟩

/-- Concrete fixture: a pending project of client 1. -/
def exProject : Project :=
  ⟨1, "Site", "Complete redesign", 1, "pending", 0, 10, 100, 7, 0⟩

/-- Concrete fixture: a completed project of client 1. -/
def exProjectDone : Project :=
  ⟨2, "App", "Mobile app build", 1, "completed", 0, 10, 50, 8, 1⟩

/-- Concrete fixture: a valid project-creation body for client 1. -/
def exProjectBody : ProjectBody :=
  ⟨some "Site", some "A full redesign", some 1, none, some 0, some 10, some 100⟩

/-- Concrete fixture: a valid client-creation body. -/
def exClientBody : ClientBody :=
  ⟨some "Acme", some "A@Acme.com", some "1234567890", some "Acme", none, none⟩

/-- Valid project status: the `projectSchema` enum (part_000 lines 22-26),
also enforced by the Joi `status` rules. -/
def validStatus (st : String) : Prop :=
  st = "pending" ∨ st = "in-progress" ∨ st = "completed"

/-- Client-collection invariant maintained by the routes: document ids are
pairwise distinct (MongoDB `_id` uniqueness), every stored email is
lowercase (the schema setter), and stored emails are pairwise distinct (the
duplicate pre-checks). -/
def ClientInv (s : Store) : Prop :=
  (s.clients.map Client.id).Nodup ∧
  (∀ e ∈ s.clients.map Client.email, lowerStr e = e) ∧
  (s.clients.map Client.email).Nodup

/-- Project-collection invariant: every stored status is one of the three
enum values. -/
def StatusInv (s : Store) : Prop :=
  ∀ p ∈ s.projects, validStatus p.status

/-! ### Helper lemmas -/

theorem charToNat_ofNat (n : Nat) (h : n.isValidChar) : (Char.ofNat n).toNat = n := by
  simp [Char.ofNat, h, Char.ofNatAux, Char.toNat, UInt32.toNat]

theorem charToLower_idem (c : Char) : c.toLower.toLower = c.toLower := by
  unfold Char.toLower
  by_cases h : c.toNat ≥ 65 ∧ c.toNat ≤ 90
  · have hv : (c.toNat + 32).isValidChar := by
      left
      omega
    have ht : (Char.ofNat (c.toNat + 32)).toNat = c.toNat + 32 := charToNat_ofNat _ hv
    simp only [if_pos h, ht]
    rw [if_neg]
    omega
  · simp only [if_neg h]

theorem lowerStr_idem (s : String) : lowerStr (lowerStr s) = lowerStr s := by
  simp only [lowerStr, List.map_map]
  exact congrArg String.mk (List.map_congr_left (fun c _ => charToLower_idem c))

theorem length_updateFirst (p : α → Bool) (f : α → α) (l : List α) :
    (updateFirst p f l).length = l.length := by
  induction l with
  | nil => rfl
  | cons x xs ih =>
    simp only [updateFirst]
    split <;> simp [ih]

theorem map_updateFirst (p : α → Bool) (f : α → α) (g : α → β) (l : List α)
    (h : ∀ a, g (f a) = g a) : (updateFirst p f l).map g = l.map g := by
  induction l with
  | nil => rfl
  | cons x xs ih =>
    simp only [updateFirst]
    split <;> simp [ih, h]

theorem mem_updateFirst {p : α → Bool} {f : α → α} {l : List α} {b : α}
    (hb : b ∈ updateFirst p f l) : b ∈ l ∨ ∃ a ∈ l, b = f a := by
  induction l with
  | nil => simp [updateFirst] at hb
  | cons x xs ih =>
    simp only [updateFirst] at hb
    split at hb
    · rcases List.mem_cons.mp hb with h | h
      · exact Or.inr ⟨x, List.mem_cons_self x xs, h⟩
      · exact Or.inl (List.mem_cons_of_mem x h)
    · rcases List.mem_cons.mp hb with h | h
      · exact Or.inl (h ▸ List.mem_cons_self x xs)
      · rcases ih h with h' | ⟨a, ha, rfl⟩
        · exact Or.inl (List.mem_cons_of_mem x h')
        · exact Or.inr ⟨a, List.mem_cons_of_mem x ha, rfl⟩

theorem find?_updateFirst {p : α → Bool} {f : α → α} {l : List α} {a : α}
    (hfind : l.find? p = some a) (hp : p (f a) = true) :
    (updateFirst p f l).find? p = some (f a) := by
  induction l with
  | nil => simp at hfind
  | cons x xs ih =>
    by_cases hx : p x
    · rw [List.find?_cons_of_pos _ hx] at hfind
      cases hfind
      simp [updateFirst, hx, List.find?_cons_of_pos _ hp]
    · rw [List.find?_cons_of_neg _ hx] at hfind
      simp only [updateFirst, if_neg hx]
      rw [List.find?_cons_of_neg _ hx]
      exact ih hfind

theorem updateFirst_updateFirst (p : α → Bool) (f : α → α) (l : List α)
    (hp : ∀ a, p (f a) = p a) (hf : ∀ a, f (f a) = f a) :
    updateFirst p f (updateFirst p f l) = updateFirst p f l := by
  induction l with
  | nil => rfl
  | cons x xs ih =>
    by_cases hx : p x
    · simp [updateFirst, hx, hp, hf]
    · simp [updateFirst, hx, ih]

theorem nodup_map_updateFirst {α : Type} {β : Type} [DecidableEq β]
    (k : α → Nat) (cid : Nat) (f : α → α) (g : α → β) (e : β) (l : List α)
    (hids : (l.map k).Nodup) (hnd : (l.map g).Nodup)
    (hge : ∀ a, g (f a) = e)
    (hcheck : ∀ a ∈ l, k a = cid ∨ g a ≠ e) :
    ((updateFirst (fun a => k a == cid) f l).map g).Nodup := by
  induction l with
  | nil => simp [updateFirst]
  | cons x xs ih =>
    simp only [List.map_cons, List.nodup_cons] at hids hnd
    simp only [updateFirst]
    by_cases hx : (k x == cid) = true
    · rw [if_pos hx]
      have hxeq : k x = cid := eq_of_beq hx
      simp only [List.map_cons, List.nodup_cons, hge]
      refine ⟨fun hmem => ?_, hnd.2⟩
      rcases List.mem_map.mp hmem with ⟨a, ha, hga⟩
      rcases hcheck a (List.mem_cons_of_mem x ha) with h | h
      · exact hids.1 (List.mem_map.mpr ⟨a, ha, by rw [h, hxeq]⟩)
      · exact h hga
    · rw [if_neg hx]
      have hxne : k x ≠ cid := fun h => hx (by rw [h]; exact beq_self_eq_true cid)
      simp only [List.map_cons, List.nodup_cons]
      refine ⟨fun hmem => ?_, ih hids.2 hnd.2
        (fun a ha => hcheck a (List.mem_cons_of_mem x ha))⟩
      rcases List.mem_map.mp hmem with ⟨a, ha, hga⟩
      rcases mem_updateFirst ha with h | ⟨a', ha', rfl⟩
      · exact hnd.1 (List.mem_map.mpr ⟨a, h, hga⟩)
      · rw [hge a'] at hga
        rcases hcheck x (List.mem_cons_self x xs) with h | h
        · exact hxne h
        · exact h hga.symm

theorem le_foldrMax (l : List Nat) (a : Nat) (ha : a ∈ l) : a ≤ l.foldr max 0 := by
  induction l with
  | nil => simp at ha
  | cons x xs ih =>
    rcases List.mem_cons.mp ha with rfl | h
    · exact le_max_left _ _
    · exact le_trans (ih h) (le_max_right _ _)

theorem freshClientId_not_mem (s : Store) : freshClientId s ∉ s.clients.map Client.id := by
  intro hmem
  have := le_foldrMax _ _ hmem
  simp only [freshClientId] at this
  omega

theorem freshProjectId_not_mem (s : Store) : freshProjectId s ∉ s.projects.map Project.id := by
  intro hmem
  have := le_foldrMax _ _ hmem
  simp only [freshProjectId] at this
  omega

/-! ### Inversion lemmas for successful handler runs -/

theorem clientDeactivate_ok_iff {s : Store} {cid : Nat} {s₁ : Store} :
    clientDeactivate s cid = .ok s₁ ↔
      (s.clients.find? (fun c => c.id == cid)).isSome ∧ countActiveProjects s cid = 0 ∧
      s₁ = { s with clients := updateFirst (fun c => c.id == cid) setInactive s.clients } := by
  unfold clientDeactivate
  cases hf : s.clients.find? (fun c => c.id == cid) with
  | none => simp
  | some c =>
    simp only [Option.isSome_some, true_and]
    split
    · simp only [reduceCtorEq, false_iff, not_and]
      omega
    · constructor
      · intro h
        exact ⟨by omega, (Except.ok.inj h).symm⟩
      · rintro ⟨-, rfl⟩
        rfl

theorem clientCreate_ok_inv {s : Store} {b : ClientBody} {cAt : Nat} {s' : Store}
    (h : clientCreate s b cAt = .ok s') :
    s'.projects = s.projects ∧
    createClientSchemaErrors b = [] ∧
    ∃ em, b.email = some em ∧
      (∀ c ∈ s.clients, ¬(c.email == lowerStr em) = true) ∧
      ∃ c', c'.id = freshClientId s ∧ c'.email = lowerStr em ∧
        s'.clients = s.clients ++ [c'] := by
  unfold clientCreate at h
  split at h
  · cases h
  · rename_i herrs
    split at h
    case h_2 => cases h
    case h_1 nm em ph co hnm hem hph hco =>
      split at h
      · cases h
      · rename_i hdup
        cases h
        refine ⟨rfl, herrs, em, hem, ?_, _, rfl, rfl, rfl⟩
        intro c hc
        have := List.find?_eq_none.mp (Option.not_isSome_iff_eq_none.mp hdup) c hc
        simpa using this

theorem clientUpdate_ok_inv {s : Store} {cid : Nat} {b : ClientBody} {s' : Store}
    (h : clientUpdate s cid b = .ok s') :
    s'.projects = s.projects ∧
    updateClientSchemaErrors b = [] ∧
    (∀ em, b.email = some em →
      ∀ o ∈ s.clients, o.id = cid ∨ o.email ≠ lowerStr em) ∧
    s'.clients = updateFirst (fun c => c.id == cid) (applyClientPatch b) s.clients := by
  unfold clientUpdate at h
  split at h
  · cases h
  · rename_i herrs
    split at h
    · cases h
    · rename_i hdup
      split at h
      · cases h
      · cases h
        refine ⟨rfl, herrs, ?_, rfl⟩
        intro em hem o ho
        rw [hem] at hdup
        have hdup' : ∀ o ∈ s.clients, o.email = lowerStr em → o.id = cid := by
          simpa using hdup
        by_cases he : o.email = lowerStr em
        · exact Or.inl (hdup' o ho he)
        · exact Or.inr he

theorem projectCreate_ok_inv {s : Store} {actorId : Nat} {b : ProjectBody} {cAt : Nat} {s' : Store}
    (h : projectCreate s actorId b cAt = .ok s') :
    s'.clients = s.clients ∧
    createProjectSchemaErrors b = [] ∧
    ∃ np : Project, np.id = freshProjectId s ∧ np.status = b.status.getD "pending" ∧
      np.createdBy = actorId ∧ s'.projects = s.projects ++ [np] := by
  unfold projectCreate at h
  split at h
  · cases h
  · rename_i herrs
    split at h
    · cases h
    · split at h
      · cases h
      · split at h
        · cases h
        · split at h
          · cases h
            exact ⟨rfl, herrs, _, rfl, rfl, rfl, rfl⟩
          · cases h

theorem projectUpdate_ok_inv {s : Store} {pid : Nat} {b : ProjectBody} {s' : Store}
    (h : projectUpdate s pid b = .ok s') :
    s'.clients = s.clients ∧
    updateProjectSchemaErrors b = [] ∧
    s'.projects = updateFirst (fun p => p.id == pid) (applyProjectPatch b) s.projects := by
  unfold projectUpdate at h
  split at h
  · cases h
  · rename_i herrs
    have hfu : ∀ (h' : projectFindAndUpdate s pid b = .ok s'),
        s'.clients = s.clients ∧ updateProjectSchemaErrors b = [] ∧
        s'.projects = updateFirst (fun p => p.id == pid) (applyProjectPatch b) s.projects := by
      intro h'
      unfold projectFindAndUpdate at h'
      split at h'
      · cases h'
      · split at h'
        · cases h'
        · cases h'
          exact ⟨rfl, herrs, rfl⟩
    split at h
    · split at h
      · cases h
      · split at h
        · cases h
        · exact hfu h
    · exact hfu h

theorem projectDelete_ok_inv {s : Store} {actor : Actor} {pid : Nat} {s' : Store}
    (h : projectDelete s actor pid = .ok s') :
    s'.clients = s.clients ∧
    s'.projects = s.projects.eraseP (fun p => p.id == pid) := by
  unfold projectDelete at h
  split at h
  · cases h
  · split at h
    · cases h
    · cases h
      exact ⟨rfl, rfl⟩

/-! ### Preservation of the invariants -/

theorem clientInv_of_maps_eq {s s' : Store}
    (hid : s'.clients.map Client.id = s.clients.map Client.id)
    (hem : s'.clients.map Client.email = s.clients.map Client.email)
    (h : ClientInv s) : ClientInv s' := by
  obtain ⟨h1, h2, h3⟩ := h
  exact ⟨hid ▸ h1, hem ▸ h2, hem ▸ h3⟩

theorem clientInv_clientCreate {s : Store} {b : ClientBody} {cAt : Nat} {s' : Store}
    (h : clientCreate s b cAt = .ok s') (hinv : ClientInv s) : ClientInv s' := by
  obtain ⟨-, -, em, -, hnodup, c', hid, hemail, hclients⟩ := clientCreate_ok_inv h
  obtain ⟨h1, h2, h3⟩ := hinv
  have hnot : ∀ c ∈ s.clients, c.email ≠ lowerStr em := by
    intro c hc
    simpa using hnodup c hc
  refine ⟨?_, ?_, ?_⟩
  · rw [hclients, List.map_append]
    rw [List.nodup_append]
    refine ⟨h1, List.nodup_singleton _, ?_⟩
    intro a ha hb
    simp only [List.map_cons, List.map_nil, List.mem_cons, List.not_mem_nil, or_false] at hb
    rw [hb, hid] at ha
    exact freshClientId_not_mem s ha
  · intro e he
    rw [hclients, List.map_append] at he
    rcases List.mem_append.mp he with h' | h'
    · exact h2 e h'
    · simp only [List.map_cons, List.map_nil, List.mem_cons, List.not_mem_nil, or_false] at h'
      rw [h', hemail]
      exact lowerStr_idem em
  · rw [hclients, List.map_append, List.nodup_append]
    refine ⟨h3, List.nodup_singleton _, ?_⟩
    intro a ha hb
    simp only [List.map_cons, List.map_nil, List.mem_cons, List.not_mem_nil, or_false] at hb
    rcases List.mem_map.mp ha with ⟨c, hc, rfl⟩
    exact hnot c hc (hb.trans hemail)

theorem clientInv_clientUpdate {s : Store} {cid : Nat} {b : ClientBody} {s' : Store}
    (h : clientUpdate s cid b = .ok s') (hinv : ClientInv s) : ClientInv s' := by
  obtain ⟨-, -, hcheck, hclients⟩ := clientUpdate_ok_inv h
  obtain ⟨h1, h2, h3⟩ := hinv
  have hidmap : s'.clients.map Client.id = s.clients.map Client.id := by
    rw [hclients]
    exact map_updateFirst _ _ _ _ (fun a => rfl)
  cases hbe : b.email with
  | none =>
    refine clientInv_of_maps_eq hidmap ?_ ⟨h1, h2, h3⟩
    rw [hclients]
    refine map_updateFirst _ _ _ _ (fun a => ?_)
    simp [applyClientPatch, hbe]
  | some em =>
    have hpatch : ∀ a, (applyClientPatch b a).email = lowerStr em := by
      intro a
      simp [applyClientPatch, hbe]
    refine ⟨hidmap ▸ h1, ?_, ?_⟩
    · intro e he
      rw [hclients] at he
      rcases List.mem_map.mp he with ⟨c, hc, rfl⟩
      rcases mem_updateFirst hc with h' | ⟨a, -, rfl⟩
      · exact h2 _ (List.mem_map.mpr ⟨c, h', rfl⟩)
      · rw [hpatch a]
        exact lowerStr_idem em
    · rw [hclients]
      exact nodup_map_updateFirst Client.id cid (applyClientPatch b) Client.email
        (lowerStr em) s.clients h1 h3 hpatch (hcheck em hbe)

theorem clientInv_clientDeactivate {s : Store} {cid : Nat} {s' : Store}
    (h : clientDeactivate s cid = .ok s') (hinv : ClientInv s) : ClientInv s' := by
  obtain ⟨-, -, rfl⟩ := clientDeactivate_ok_iff.mp h
  refine clientInv_of_maps_eq ?_ ?_ hinv <;>
    exact map_updateFirst _ _ _ _ (fun a => rfl)

theorem clientInv_applyOp (s : Store) (op : Op) (h : ClientInv s) : ClientInv (applyOp s op) := by
  unfold applyOp
  cases hrun : runOp s op with
  | error e => exact h
  | ok s' =>
    cases op with
    | cCreate b cAt => exact clientInv_clientCreate hrun h
    | cUpdate cid b => exact clientInv_clientUpdate hrun h
    | cDeact cid => exact clientInv_clientDeactivate hrun h
    | pCreate actorId b cAt =>
      obtain ⟨hcl, -, -⟩ := projectCreate_ok_inv hrun
      exact clientInv_of_maps_eq (by rw [hcl]) (by rw [hcl]) h
    | pUpdate pid b =>
      obtain ⟨hcl, -, -⟩ := projectUpdate_ok_inv hrun
      exact clientInv_of_maps_eq (by rw [hcl]) (by rw [hcl]) h
    | pDelete actor pid =>
      obtain ⟨hcl, -⟩ := projectDelete_ok_inv hrun
      exact clientInv_of_maps_eq (by rw [hcl]) (by rw [hcl]) h

theorem reachable_clientInv {s : Store} (h : Reachable s) : ClientInv s := by
  induction h with
  | init => exact ⟨List.nodup_nil, by simp, List.nodup_nil⟩
  | step op hr ih => exact clientInv_applyOp _ op ih

theorem optionToList_eq_nil {o : Option α} (h : o.toList = []) : o = none := by
  cases o with
  | none => rfl
  | some a => cases h

theorem checkProjectStatus_of_createErrors {b : ProjectBody}
    (h : createProjectSchemaErrors b = []) : checkProjectStatus b.status = none := by
  unfold createProjectSchemaErrors at h
  simp only [List.append_eq_nil, and_assoc] at h
  exact optionToList_eq_nil h.2.2.2.2.2.1

theorem checkProjectStatus_of_updateErrors {b : ProjectBody}
    (h : updateProjectSchemaErrors b = []) : checkProjectStatus b.status = none := by
  unfold updateProjectSchemaErrors at h
  split at h
  · cases h
  · simp only [List.append_eq_nil, and_assoc] at h
    exact optionToList_eq_nil h.2.2.1

theorem validStatus_of_check {st : Option String} (h : checkProjectStatus st = none)
    (dflt : String) (hd : validStatus dflt) : validStatus (st.getD dflt) := by
  cases st with
  | none => exact hd
  | some v =>
    by_cases hv : (v == "pending" || v == "in-progress" || v == "completed") = true
    · simp only [Option.getD_some, validStatus]
      rcases Bool.or_eq_true_iff.mp hv with h' | h'
      · rcases Bool.or_eq_true_iff.mp h' with h'' | h''
        · exact Or.inl (eq_of_beq h'')
        · exact Or.inr (Or.inl (eq_of_beq h''))
      · exact Or.inr (Or.inr (eq_of_beq h'))
    · exfalso
      simp [checkProjectStatus, hv] at h

theorem statusInv_applyOp (s : Store) (op : Op) (h : StatusInv s) : StatusInv (applyOp s op) := by
  unfold applyOp
  cases hrun : runOp s op with
  | error e => exact h
  | ok s' =>
    cases op with
    | cCreate b cAt =>
      obtain ⟨hpr, -⟩ := clientCreate_ok_inv hrun
      intro p hp
      exact h p (hpr ▸ hp)
    | cUpdate cid b =>
      obtain ⟨hpr, -⟩ := clientUpdate_ok_inv hrun
      intro p hp
      exact h p (hpr ▸ hp)
    | cDeact cid =>
      obtain ⟨-, -, rfl⟩ := clientDeactivate_ok_iff.mp hrun
      exact h
    | pCreate actorId b cAt =>
      obtain ⟨-, herrs, np, -, hst, -, hpr⟩ := projectCreate_ok_inv hrun
      intro p hp
      rw [hpr] at hp
      rcases List.mem_append.mp hp with h' | h'
      · exact h p h'
      · simp only [List.mem_cons, List.not_mem_nil, or_false] at h'
        rw [h', hst]
        exact validStatus_of_check (checkProjectStatus_of_createErrors herrs) _ (Or.inl rfl)
    | pUpdate pid b =>
      obtain ⟨-, herrs, hpr⟩ := projectUpdate_ok_inv hrun
      intro p hp
      rw [hpr] at hp
      rcases mem_updateFirst hp with h' | ⟨a, ha, rfl⟩
      · exact h p h'
      · have : (applyProjectPatch b a).status = b.status.getD a.status := by
          simp [applyProjectPatch]
        rw [this]
        exact validStatus_of_check (checkProjectStatus_of_updateErrors herrs) _ (h a ha)
    | pDelete actor pid =>
      obtain ⟨-, hpr⟩ := projectDelete_ok_inv hrun
      intro p hp
      rw [hpr] at hp
      exact h p ((List.eraseP_sublist s.projects).mem hp)

theorem reachable_statusInv {s : Store} (h : Reachable s) : StatusInv s := by
  induction h with
  | init => intro p hp; cases hp
  | step op hr ih => exact statusInv_applyOp _ op ih

theorem natCeilDiv_eq (n k : Nat) (hk : 0 < k) :
    (n + k - 1) / k = ⌈(n : ℚ) / (k : ℚ)⌉₊ := by
  have hkq : (0 : ℚ) < (k : ℚ) := by exact_mod_cast hk
  rcases Nat.eq_zero_or_pos n with rfl | hn
  · rw [Nat.div_eq_of_lt (by omega)]
    simp
  · set q := (n + k - 1) / k with hq
    have hq1 : 1 ≤ q := by
      rw [hq, Nat.le_div_iff_mul_le hk]
      omega
    have hdm := Nat.div_add_mod (n + k - 1) k
    have hmlt : (n + k - 1) % k < k := Nat.mod_lt _ hk
    have hA : k * q + (n + k - 1) % k = n + k - 1 := hdm
    have f1 : n ≤ q * k := by
      have : q * k = k * q := Nat.mul_comm q k
      omega
    have f2 : (q - 1) * k < n := by
      have hsub : (q - 1) * k = q * k - k := by
        rw [Nat.sub_mul, one_mul]
      have : q * k = k * q := Nat.mul_comm q k
      omega
    symm
    rw [Nat.ceil_eq_iff (by omega)]
    constructor
    · rw [lt_div_iff₀ hkq]
      exact_mod_cast f2
    · rw [div_le_iff₀ hkq]
      exact_mod_cast f1

theorem pageSlice_getElem? (l : List α) (page limit i : Nat) :
    (pageSlice l page limit)[i]? =
      if i < limit then l[(page - 1) * limit + i]? else none := by
  simp [pageSlice, List.getElem?_take, List.getElem?_drop]

/-! ### Claim theorems -/

/-- C1: for a client id that resolves, the deactivate operation
(DELETE /clients/:id) fails with Conflict iff at least one project
referencing that client is pending or in-progress, the reported count being
exactly the number of such projects; otherwise it succeeds, setting the
client's status to "inactive" while deleting neither the client record nor
any project; for an id that does not resolve it fails with NotFound. -/
theorem c1_deactivate_conflict_iff (s : Store) (cid : Nat) :
    (s.clients.find? (fun c => c.id == cid) = none →
      clientDeactivate s cid = .error (.notFound "Client not found")) ∧
    (∀ c, s.clients.find? (fun c => c.id == cid) = some c →
      ((clientDeactivate s cid =
          .error (.conflict (activeProjectsMessage (countActiveProjects s cid)))) ↔
        0 < countActiveProjects s cid) ∧
      (countActiveProjects s cid = 0 →
        clientDeactivate s cid =
          .ok { s with clients := updateFirst (fun c => c.id == cid) setInactive s.clients } ∧
        (updateFirst (fun c => c.id == cid) setInactive s.clients).length =
          s.clients.length ∧
        (updateFirst (fun c => c.id == cid) setInactive s.clients).find?
            (fun c => c.id == cid) = some (setInactive c) ∧
        ({ s with clients := updateFirst (fun c => c.id == cid) setInactive s.clients }
            : Store).projects = s.projects)) := by
  constructor
  · intro h
    unfold clientDeactivate
    rw [h]
  · intro c hc
    constructor
    · unfold clientDeactivate
      rw [hc]
      by_cases hpos : 0 < countActiveProjects s cid
      · simp [hpos]
      · simp [hpos]
    · intro h0
      refine ⟨?_, length_updateFirst _ _ _, ?_, rfl⟩
      · unfold clientDeactivate
        rw [hc, if_neg (by omega)]
      · refine find?_updateFirst hc ?_
        simpa [setInactive] using List.find?_some hc

/-- Witness for C1: in a store where client 1 has one pending project the
deactivate fails with the Conflict reporting count 1; with no active
project it succeeds and stores the client as inactive, projects intact. -/
theorem c1_deactivate_conflict_iff_witness :
    clientDeactivate ⟨[exClient], [exProject]⟩ 1 =
      .error (.conflict (activeProjectsMessage 1)) ∧
    clientDeactivate ⟨[exClient], [exProjectDone]⟩ 1 =
      .ok ⟨[setInactive exClient], [exProjectDone]⟩ := by
  constructor
  · have h := ((c1_deactivate_conflict_iff ⟨[exClient], [exProject]⟩ 1).2 exClient rfl).1
    have h1 := h.mpr (by decide)
    exact h1
  · have h := ((c1_deactivate_conflict_iff ⟨[exClient], [exProjectDone]⟩ 1).2 exClient
      rfl).2 (by decide)
    exact h.1

/-- C10: deactivation is idempotent on success — whenever a deactivate
succeeds and returns store `s₁`, running deactivate again on `s₁` with the
same id also succeeds (nothing rejects an already-inactive client) and
returns `s₁` itself, so the client keeps status "inactive" and every other
field its value after the first run. -/
theorem c10_deactivate_idempotent {s s₁ : Store} {cid : Nat}
    (h : clientDeactivate s cid = .ok s₁) :
    clientDeactivate s₁ cid = .ok s₁ := by
  obtain ⟨hsome, hcnt, rfl⟩ := clientDeactivate_ok_iff.mp h
  apply clientDeactivate_ok_iff.mpr
  obtain ⟨c, hc⟩ := Option.isSome_iff_exists.mp hsome
  refine ⟨?_, ?_, ?_⟩
  · rw [find?_updateFirst hc (by simpa [setInactive] using List.find?_some hc)]
    rfl
  · exact hcnt
  · have hu := updateFirst_updateFirst (fun c => c.id == cid) setInactive s.clients
      (fun a => rfl) (fun a => rfl)
    exact congrArg (fun l => Store.mk l s.projects) hu.symm

/-- Witness for C10: a successful deactivate of client 1, re-run through the
idempotence theorem. -/
theorem c10_deactivate_idempotent_witness :
    clientDeactivate ⟨[setInactive exClient], [exProjectDone]⟩ 1 =
      .ok ⟨[setInactive exClient], [exProjectDone]⟩ := by
  have h : clientDeactivate ⟨[exClient], [exProjectDone]⟩ 1 =
      .ok ⟨[setInactive exClient], [exProjectDone]⟩ := rfl
  exact c10_deactivate_idempotent h

/-- C2: a project create, and a project update whose patch contains
`clientId`, fail with NotFound when the referenced clientId does not resolve
and with Conflict when it resolves to a client whose status is "inactive";
in each of these cases the store is unchanged (no project document is
created or modified). -/
theorem c2_inactive_client_rejected (s : Store) (actorId : Nat) (bc : ProjectBody)
    (cAt : Nat) (pid : Nat) (bu : ProjectBody) :
    (createProjectSchemaErrors bc = [] → ∀ cid, bc.clientId = some cid →
      (s.clients.find? (fun c => c.id == cid) = none →
        projectCreate s actorId bc cAt = .error (.notFound "Client not found") ∧
        applyOp s (.pCreate actorId bc cAt) = s) ∧
      (∀ c, s.clients.find? (fun c => c.id == cid) = some c → c.status = "inactive" →
        projectCreate s actorId bc cAt =
          .error (.conflict "Cannot create project for inactive client") ∧
        applyOp s (.pCreate actorId bc cAt) = s)) ∧
    (updateProjectSchemaErrors bu = [] → ∀ cid, bu.clientId = some cid →
      (s.clients.find? (fun c => c.id == cid) = none →
        projectUpdate s pid bu = .error (.notFound "Client not found") ∧
        applyOp s (.pUpdate pid bu) = s) ∧
      (∀ c, s.clients.find? (fun c => c.id == cid) = some c → c.status = "inactive" →
        projectUpdate s pid bu =
          .error (.conflict "Cannot assign project to inactive client") ∧
        applyOp s (.pUpdate pid bu) = s)) := by
  constructor
  · intro herrs cid hcid
    constructor
    · intro hfind
      have he : projectCreate s actorId bc cAt = .error (.notFound "Client not found") := by
        simp [projectCreate, herrs, hcid, hfind]
      exact ⟨he, by simp [applyOp, runOp, he]⟩
    · intro c hfind hstat
      have he : projectCreate s actorId bc cAt =
          .error (.conflict "Cannot create project for inactive client") := by
        simp [projectCreate, herrs, hcid, hfind, hstat]
      exact ⟨he, by simp [applyOp, runOp, he]⟩
  · intro herrs cid hcid
    constructor
    · intro hfind
      have he : projectUpdate s pid bu = .error (.notFound "Client not found") := by
        simp [projectUpdate, herrs, hcid, hfind]
      exact ⟨he, by simp [applyOp, runOp, he]⟩
    · intro c hfind hstat
      have he : projectUpdate s pid bu =
          .error (.conflict "Cannot assign project to inactive client") := by
        simp [projectUpdate, herrs, hcid, hfind, hstat]
      exact ⟨he, by simp [applyOp, runOp, he]⟩

/-- Witness for C2: against a store holding only the inactive client 2, a
valid create referencing the missing client 99 fails NotFound, one
referencing client 2 fails Conflict; the same for update patches carrying
those clientIds. -/
theorem c2_inactive_client_rejected_witness :
    projectCreate ⟨[exClientInactive], []⟩ 7
        ⟨some "Site", some "A full redesign", some 99, none, some 0, some 10, some 100⟩ 0 =
      .error (.notFound "Client not found") ∧
    projectCreate ⟨[exClientInactive], []⟩ 7
        ⟨some "Site", some "A full redesign", some 2, none, some 0, some 10, some 100⟩ 0 =
      .error (.conflict "Cannot create project for inactive client") ∧
    projectUpdate ⟨[exClientInactive], [exProject]⟩ 1
        ⟨none, none, some 99, none, none, none, none⟩ =
      .error (.notFound "Client not found") ∧
    projectUpdate ⟨[exClientInactive], [exProject]⟩ 1
        ⟨none, none, some 2, none, none, none, none⟩ =
      .error (.conflict "Cannot assign project to inactive client") := by
  refine ⟨?_, ?_, ?_, ?_⟩
  · exact (((c2_inactive_client_rejected ⟨[exClientInactive], []⟩ 7
      ⟨some "Site", some "A full redesign", some 99, none, some 0, some 10, some 100⟩ 0 0
      ⟨none, none, none, none, none, none, none⟩).1 (by decide) 99 rfl).1 rfl).1
  · exact (((c2_inactive_client_rejected ⟨[exClientInactive], []⟩ 7
      ⟨some "Site", some "A full redesign", some 2, none, some 0, some 10, some 100⟩ 0 0
      ⟨none, none, none, none, none, none, none⟩).1 (by decide) 2 rfl).2
      exClientInactive rfl rfl).1
  · exact (((c2_inactive_client_rejected ⟨[exClientInactive], [exProject]⟩ 7
      ⟨none, none, none, none, none, none, none⟩ 0 1
      ⟨none, none, some 99, none, none, none, none⟩).2 (by decide) 99 rfl).1 rfl).1
  · exact (((c2_inactive_client_rejected ⟨[exClientInactive], [exProject]⟩ 7
      ⟨none, none, none, none, none, none, none⟩ 0 1
      ⟨none, none, some 2, none, none, none, none⟩).2 (by decide) 2 rfl).2
      exClientInactive rfl rfl).1

/-- C3 (code bug): the update path does not re-validate the date ordering
against the persisted document.  Patching only `startDate` runs no ordering
check at all — the Joi rule compares the two dates only when both are in
the patch, and no Mongoose validator exists on the `startDate` path — so
moving `startDate` past the persisted `endDate` succeeds and the stored
project ends up with `endDate ≤ startDate`, contradicting the claimed
re-validation and the schema's own "End date must be after start date"
invariant. -/
theorem c3_update_date_revalidation_bug :
    projectUpdate ⟨[exClient], [exProject]⟩ 1
        ⟨none, none, none, none, some 20, none, none⟩ =
      .ok ⟨[exClient], [{ exProject with startDate := 20 }]⟩ ∧
    ¬(({ exProject with startDate := 20 } : Project).startDate <
      ({ exProject with startDate := 20 } : Project).endDate) := by
  exact ⟨rfl, by decide⟩

/-- C9: a project created without an explicit status in the body is
persisted with status "pending" (every project of the resulting store is an
old one or carries status "pending"), and in every reachable store all
project statuses lie in the pending / in-progress / completed enum. -/
theorem c9_status_default_and_enum :
    (∀ (s : Store) (actorId : Nat) (b : ProjectBody) (cAt : Nat) (s' : Store),
      b.status = none → projectCreate s actorId b cAt = .ok s' →
      ∀ p ∈ s'.projects, p ∈ s.projects ∨ p.status = "pending") ∧
    (∀ s : Store, Reachable s → ∀ p ∈ s.projects, validStatus p.status) := by
  constructor
  · intro s actorId b cAt s' hst h p hp
    obtain ⟨-, -, np, -, hnp, -, hpr⟩ := projectCreate_ok_inv h
    rw [hpr] at hp
    rcases List.mem_append.mp hp with h' | h'
    · exact Or.inl h'
    · simp only [List.mem_cons, List.not_mem_nil, or_false] at h'
      rw [h', hnp, hst]
      exact Or.inr rfl
  · intro s hr
    exact reachable_statusInv hr

/-- Witness for C9: creating a project with no status in the body persists
it as "pending", and the pending project of a concrete reachable store has
a valid status. -/
theorem c9_status_default_and_enum_witness :
    ((⟨1, "Site", "A full redesign", 1, "pending", 0, 10, 100, 7, 5⟩ : Project) ∈
        (⟨[exClient], []⟩ : Store).projects ∨
      (⟨1, "Site", "A full redesign", 1, "pending", 0, 10, 100, 7, 5⟩ : Project).status =
        "pending") ∧
    validStatus (⟨1, "Site", "A full redesign", 1, "pending", 0, 10, 100, 7, 5⟩
      : Project).status := by
  constructor
  · exact (c9_status_default_and_enum.1 ⟨[exClient], []⟩ 7 exProjectBody 5
      ⟨[exClient], [⟨1, "Site", "A full redesign", 1, "pending", 0, 10, 100, 7, 5⟩]⟩
      rfl rfl) _ (by decide)
  · exact c9_status_default_and_enum.2 _
      (Reachable.step (.pCreate 7 exProjectBody 5)
        (Reachable.step (.cCreate exClientBody 0) Reachable.init))
      ⟨1, "Site", "A full redesign", 1, "pending", 0, 10, 100, 7, 5⟩ (by decide)

theorem clientBody_fields_of_errors {b : ClientBody} (h : createClientSchemaErrors b = []) :
    b.name.isSome ∧ b.email.isSome ∧ b.phone.isSome ∧ b.company.isSome := by
  unfold createClientSchemaErrors at h
  simp only [List.append_eq_nil, and_assoc] at h
  obtain ⟨h1, h2, h3, h4, -, -⟩ := h
  refine ⟨?_, ?_, ?_, ?_⟩
  · cases hb : b.name with
    | none => rw [hb] at h1; simp [checkClientName] at h1
    | some v => rfl
  · cases hb : b.email with
    | none => rw [hb] at h2; simp [checkClientEmail] at h2
    | some v => rfl
  · cases hb : b.phone with
    | none => rw [hb] at h3; simp [checkClientPhone] at h3
    | some v => rfl
  · cases hb : b.company with
    | none => rw [hb] at h4; simp [checkClientCompany] at h4
    | some v => rfl

/-- C4: in every reachable store no two client records share the same
lowercase-normalized email; a (valid) create whose normalized email already
belongs to a stored client fails with Conflict and persists nothing, and a
(valid) update whose patched normalized email already belongs to a client
with a different id fails with Conflict and persists nothing. -/
theorem c4_email_uniqueness :
    (∀ s : Store, Reachable s →
      (s.clients.map (fun c => lowerStr c.email)).Nodup) ∧
    (∀ (s : Store) (b : ClientBody) (cAt : Nat) (em : String),
      createClientSchemaErrors b = [] → b.email = some em →
      (∃ c ∈ s.clients, c.email = lowerStr em) →
      clientCreate s b cAt =
        .error (.conflict "Client with this email already exists") ∧
      applyOp s (.cCreate b cAt) = s) ∧
    (∀ (s : Store) (cid : Nat) (b : ClientBody) (em : String),
      updateClientSchemaErrors b = [] → b.email = some em →
      (∃ c ∈ s.clients, c.id ≠ cid ∧ c.email = lowerStr em) →
      clientUpdate s cid b =
        .error (.conflict "Another client with this email already exists") ∧
      applyOp s (.cUpdate cid b) = s) := by
  refine ⟨?_, ?_, ?_⟩
  · intro s hr
    obtain ⟨-, hlow, hnd⟩ := reachable_clientInv hr
    have : s.clients.map (fun c => lowerStr c.email) = s.clients.map (fun c => c.email) :=
      List.map_congr_left (fun c hc => hlow _ (List.mem_map.mpr ⟨c, hc, rfl⟩))
    rw [this]
    exact hnd
  · intro s b cAt em herrs hem ⟨c, hc, hce⟩
    obtain ⟨hn, -, hp, hco⟩ := clientBody_fields_of_errors herrs
    obtain ⟨nm, hnm⟩ := Option.isSome_iff_exists.mp hn
    obtain ⟨ph, hph⟩ := Option.isSome_iff_exists.mp hp
    obtain ⟨co, hco'⟩ := Option.isSome_iff_exists.mp hco
    have hdup : (s.clients.find? (fun c => c.email == lowerStr em)).isSome := by
      rw [List.find?_isSome]
      exact ⟨c, hc, by rw [hce]; exact beq_self_eq_true _⟩
    have he : clientCreate s b cAt =
        .error (.conflict "Client with this email already exists") := by
      simp [clientCreate, herrs, hnm, hem, hph, hco', hdup]
    exact ⟨he, by simp [applyOp, runOp, he]⟩
  · intro s cid b em herrs hem ⟨c, hc, hcid, hce⟩
    have hdup : (s.clients.find?
        (fun o => o.email == lowerStr em && !(o.id == cid))).isSome := by
      rw [List.find?_isSome]
      refine ⟨c, hc, ?_⟩
      rw [hce]
      simp [hcid]
    have he : clientUpdate s cid b =
        .error (.conflict "Another client with this email already exists") := by
      simp [clientUpdate, herrs, hem, hdup]
    exact ⟨he, by simp [applyOp, runOp, he]⟩

/-- Witness for C4: a one-client reachable store has pairwise-distinct
normalized emails; re-creating the same email (in different case) conflicts,
as does patching another client id to that email. -/
theorem c4_email_uniqueness_witness :
    ((applyOp ⟨[], []⟩ (Op.cCreate exClientBody 0)).clients.map
      (fun c => lowerStr c.email)).Nodup ∧
    clientCreate ⟨[exClient], []⟩ exClientBody 3 =
      .error (.conflict "Client with this email already exists") ∧
    clientUpdate ⟨[exClient], []⟩ 2 ⟨none, some "A@Acme.com", none, none, none, none⟩ =
      .error (.conflict "Another client with this email already exists") := by
  refine ⟨?_, ?_, ?_⟩
  · exact c4_email_uniqueness.1 _ (Reachable.step (.cCreate exClientBody 0) Reachable.init)
  · exact (c4_email_uniqueness.2.1 ⟨[exClient], []⟩ exClientBody 3 "A@Acme.com"
      (by decide) rfl ⟨exClient, by decide, by decide⟩).1
  · exact (c4_email_uniqueness.2.2 ⟨[exClient], []⟩ 2
      ⟨none, some "A@Acme.com", none, none, none, none⟩ "A@Acme.com"
      (by decide) rfl ⟨exClient, by decide, by decide, by decide⟩).1

/-- C5 (code bug): a client create whose body offends on four fields (all
of name, email, phone, company missing) is rejected before any persistence
call, but the reported `details` list contains only the first offending
field — Joi's `validate` is called with its default `abortEarly: true` —
although the full per-field error list has one entry for each of the four
offending fields.  The repository's own test expects four entries here. -/
theorem c5_validation_not_batched :
    validateCreateClientDetails ⟨none, none, none, none, none, none⟩ =
      [⟨"name", "Name is required"⟩] ∧
    (createClientSchemaErrors ⟨none, none, none, none, none, none⟩).map
      FieldError.field = ["name", "email", "phone", "company"] := by
  exact ⟨rfl, rfl⟩

theorem ciContains_empty_needle (hay : String) {sr : String} (h : sr.data = []) :
    ciContains hay sr = true := by
  simp [ciContains, h]

theorem matches_eq_claimAmended (q : ProjectQuery) (p : Project)
    (hok : projectQueryOk q = true) :
    matchesProjectQuery q p = claimAmendedMatchesProjectQuery q p := by
  have hstatus : ∀ st : String, q.status = some st →
      (st.data.isEmpty || (p.status == st)) = (p.status == st) := by
    intro st hst
    simp only [projectQueryOk, hst, Bool.and_eq_true] at hok
    have hv := hok.1.1
    have hd : st.data.isEmpty = false := by
      rcases Bool.or_eq_true_iff.mp hv with h | h
      · rcases Bool.or_eq_true_iff.mp h with h' | h'
        · rw [eq_of_beq h']
          decide
        · rw [eq_of_beq h']
          decide
      · rw [eq_of_beq h]
        decide
    rw [hd]
    rfl
  have hstatus2 : (match q.status with
      | none => true
      | some st => st.data.isEmpty || (p.status == st)) =
      (match q.status with | none => true | some st => p.status == st) := by
    cases hqst : q.status with
    | none => rfl
    | some st => exact hstatus st hqst
  have hsearch2 : (match q.search with
      | none => true
      | some sr => sr.data.isEmpty || (ciContains p.title sr || ciContains p.description sr)) =
      (match q.search with
      | none => true
      | some sr => ciContains p.title sr || ciContains p.description sr) := by
    cases q.search with
    | none => rfl
    | some sr =>
      show (sr.data.isEmpty || (ciContains p.title sr || ciContains p.description sr)) =
        (ciContains p.title sr || ciContains p.description sr)
      cases hsr : sr.data with
      | nil =>
        rw [ciContains_empty_needle p.title hsr, ciContains_empty_needle p.description hsr]
        simp
      | cons c cs => rfl
  unfold matchesProjectQuery claimAmendedMatchesProjectQuery
  rw [hsearch2, hstatus2]

/-- C6 counterexample: the free claim fails at a Joi-valid query supplying
only `budgetMax = 0` — the claimed predicate demands `budget ≤ 0`, but the
code's truthiness guard drops a 0 bound, so the filter keeps a project with
budget 100 and the result set differs from the claimed one. -/
theorem c6_list_filter_counterexample :
    projectQueryOk exQueryBudgetMaxZero = true ∧
    filterProjects exQueryBudgetMaxZero [exProject] = [exProject] ∧
    claimMatchesProjectQuery exQueryBudgetMaxZero exProject = false ∧
    filterProjects exQueryBudgetMaxZero [exProject] ≠
      [exProject].filter (claimMatchesProjectQuery exQueryBudgetMaxZero) := by
  exact ⟨rfl, rfl, rfl, by decide⟩

/-- C6 (amended): for every Joi-valid query, the project list result set is
exactly the projects satisfying the conjunction of the supplied filter
categories — free text as a case-insensitive-substring disjunction over
title and description, exact status and clientId, inclusive date bounds,
inclusive budget bounds — except that a supplied budget bound equal to 0
imposes no constraint. -/
theorem c6_list_filter_amended (q : ProjectQuery) (hok : projectQueryOk q = true)
    (l : List Project) :
    filterProjects q l = l.filter (claimAmendedMatchesProjectQuery q) := by
  unfold filterProjects
  exact List.filter_congr (fun p _ => matches_eq_claimAmended q p hok)

/-- Witness for C6 (amended): a concrete query exercising search, status,
clientId, a date range and both budget bounds (with `budgetMin = 0`). -/
theorem c6_list_filter_amended_witness :
    filterProjects exQuery [exProject, exProjectDone] =
      [exProject, exProjectDone].filter (claimAmendedMatchesProjectQuery exQuery) :=
  c6_list_filter_amended exQuery (by decide) [exProject, exProjectDone]

/-- C7: for every sorted result sequence of n records, page and page size
limit with 1 ≤ limit ≤ 100, the list pipeline's pagination metadata has
totalPages = ⌈n / limit⌉, totalRecords = n, hasNextPage iff
page < totalPages, hasPrevPage iff page > 1 and currentPage = page, and the
returned page holds exactly the records at ranks
(page-1)·limit .. page·limit-1 of the sequence. -/
theorem c7_pagination_metadata (l : List Project) (page limit : Nat)
    (h1 : 1 ≤ limit) (_hcap : limit ≤ 100) :
    (listPipeline l page limit).2.totalPages = ⌈(l.length : ℚ) / (limit : ℚ)⌉₊ ∧
    (listPipeline l page limit).2.totalRecords = l.length ∧
    (listPipeline l page limit).2.hasNextPage =
      decide (page < (listPipeline l page limit).2.totalPages) ∧
    (listPipeline l page limit).2.hasPrevPage = decide (1 < page) ∧
    (listPipeline l page limit).2.currentPage = page ∧
    ∀ i : Nat, ((listPipeline l page limit).1)[i]? =
      if i < limit then l[(page - 1) * limit + i]? else none := by
  refine ⟨natCeilDiv_eq l.length limit h1, rfl, rfl, rfl, rfl, ?_⟩
  intro i
  exact pageSlice_getElem? l page limit i

/-- Witness for C7: the claim's instance — 25 records with limit 10 give
totalPages 3, and page 3 has hasNextPage false, hasPrevPage true, holding
the 5 remaining records. -/
theorem c7_pagination_metadata_witness :
    (listPipeline (List.replicate 25 exProject) 3 10).2.totalPages = 3 ∧
    (listPipeline (List.replicate 25 exProject) 3 10).2.totalRecords = 25 ∧
    (listPipeline (List.replicate 25 exProject) 3 10).2.hasNextPage = false ∧
    (listPipeline (List.replicate 25 exProject) 3 10).2.hasPrevPage = true ∧
    (listPipeline (List.replicate 25 exProject) 3 10).1.length = 5 := by
  have h := c7_pagination_metadata (List.replicate 25 exProject) 3 10
    (by decide) (by decide)
  exact ⟨rfl, h.2.1.trans (by decide), h.2.2.1.trans (by decide),
    h.2.2.2.1.trans (by decide), by decide⟩

theorem find?_not_mem_eraseP {k : α → Nat} {t : Nat} {l : List α} {a : α}
    (hfind : l.find? (fun x => k x == t) = some a)
    (hnd : (l.map k).Nodup) : a ∉ l.eraseP (fun x => k x == t) := by
  induction l with
  | nil => simp at hfind
  | cons x xs ih =>
    simp only [List.map_cons, List.nodup_cons] at hnd
    cases hx : (k x == t) with
    | true =>
      simp only [List.find?_cons, hx] at hfind
      obtain rfl := Option.some.inj hfind
      simp only [List.eraseP_cons, hx, cond_true]
      intro hmem
      exact hnd.1 (List.mem_map.mpr ⟨_, hmem, rfl⟩)
    | false =>
      simp only [List.find?_cons, hx] at hfind
      simp only [List.eraseP_cons, hx, cond_false]
      intro hmem
      rcases List.mem_cons.mp hmem with rfl | hmem'
      · exact absurd (List.find?_some hfind) (by simp [hx])
      · exact ih hfind hnd.2 hmem'

/-- C8: a project delete fails with NotFound when the id does not resolve
and the store is unchanged; it fails with Forbidden — store unchanged —
unless the actor's id equals the project's createdBy or the actor's role is
"admin"; when permitted, the project document with that id is removed
(under distinct ids the found record is gone) while the clients and every
project with a different id are untouched. -/
theorem c8_project_delete_authorization (s : Store) (actor : Actor) (pid : Nat) :
    (s.projects.find? (fun p => p.id == pid) = none →
      projectDelete s actor pid = .error (.notFound "Project not found") ∧
      applyOp s (.pDelete actor pid) = s) ∧
    (∀ p, s.projects.find? (fun p => p.id == pid) = some p →
      (¬(actor.id = p.createdBy ∨ actor.role = "admin") →
        projectDelete s actor pid =
          .error (.forbidden "Not authorized to delete this project") ∧
        applyOp s (.pDelete actor pid) = s) ∧
      ((actor.id = p.createdBy ∨ actor.role = "admin") →
        projectDelete s actor pid =
          .ok { s with projects := s.projects.eraseP (fun p => p.id == pid) } ∧
        ((s.projects.map Project.id).Nodup →
          p ∉ s.projects.eraseP (fun p => p.id == pid)) ∧
        (∀ q ∈ s.projects, q.id ≠ pid →
          q ∈ s.projects.eraseP (fun p => p.id == pid)))) := by
  constructor
  · intro hfind
    have he : projectDelete s actor pid = .error (.notFound "Project not found") := by
      simp [projectDelete, hfind]
    exact ⟨he, by simp [applyOp, runOp, he]⟩
  · intro p hfind
    constructor
    · intro hno
      push_neg at hno
      have hcond : (!(p.createdBy == actor.id) && !(actor.role == "admin")) = true := by
        simp only [Bool.and_eq_true, Bool.not_eq_true', beq_eq_false_iff_ne]
        exact ⟨Ne.symm hno.1, hno.2⟩
      have he : projectDelete s actor pid =
          .error (.forbidden "Not authorized to delete this project") := by
        simp [projectDelete, hfind, hcond]
      exact ⟨he, by simp [applyOp, runOp, he]⟩
    · intro hyes
      have hcond : (!(p.createdBy == actor.id) && !(actor.role == "admin")) = false := by
        rcases hyes with h | h
        · simp [h]
        · simp [h]
      refine ⟨by simp [projectDelete, hfind, hcond], ?_, ?_⟩
      · intro hnd
        exact find?_not_mem_eraseP hfind hnd
      · intro q hq hqid
        rw [List.mem_eraseP_of_neg (by simpa using hqid)]
        exact hq

/-- Witness for C8: in a store holding only project 1 (creator 7), deleting
project 5 is NotFound; actor 9 (role "user") cannot delete project 1;
actor 7 can, leaving an empty project list with the record gone. -/
theorem c8_project_delete_authorization_witness :
    projectDelete ⟨[exClient], [exProject]⟩ ⟨9, "user"⟩ 5 =
      .error (.notFound "Project not found") ∧
    projectDelete ⟨[exClient], [exProject]⟩ ⟨9, "user"⟩ 1 =
      .error (.forbidden "Not authorized to delete this project") ∧
    projectDelete ⟨[exClient], [exProject]⟩ ⟨7, "user"⟩ 1 =
      .ok ⟨[exClient], []⟩ ∧
    exProject ∉ ([exProject].eraseP (fun p => p.id == 1)) := by
  refine ⟨?_, ?_, ?_, ?_⟩
  · exact ((c8_project_delete_authorization ⟨[exClient], [exProject]⟩ ⟨9, "user"⟩ 5).1
      rfl).1
  · exact (((c8_project_delete_authorization ⟨[exClient], [exProject]⟩ ⟨9, "user"⟩ 1).2
      exProject rfl).1 (by decide)).1
  · exact (((c8_project_delete_authorization ⟨[exClient], [exProject]⟩ ⟨7, "user"⟩ 1).2
      exProject rfl).2 (Or.inl rfl)).1
  · exact (((c8_project_delete_authorization ⟨[exClient], [exProject]⟩ ⟨7, "user"⟩ 1).2
      exProject rfl).2 (Or.inl rfl)).2.1 (by decide)

end Workcity
